import Mathlib

/-!
# VeilScore: verification of the inference-to-proof pipeline

Shallow embedding of the core of the VeilScore credit-scoring service:

* `zkml/data_processing.py` — `encode_features` (fit/transform feature encoding),
* `zkml/train_model.py` — `credit_score_from_proba` (probability → score),
* `zkml/explainability.py` — `explain_prediction` (top-3 attributions, fallback path),
* `zkml/ezkl_pipeline.py` — `generate_proof` (external proving tool orchestration),
* `zkml/api/main.py` — `prepare_features` and the `/prove` handler `prove_credit_score`.

Python floats are modelled as exact rationals (ℚ); pandas NaN cells as `Option ℚ`
with `none` for NaN; raised exceptions as `Except` errors; the external `ezkl`
process and the filesystem as explicit environment parameters.  Python's `sorted`
and `list.sort` are stable sorts; they are embedded as a stable insertion sort
(`sSort`) whose stability is proved below rather than assumed.
-/

namespace VeilScore

/-! ## Stable sorting (Python `sorted` / `list.sort`)

Python's sort is stable: elements comparing equal keep their original relative
order.  `sInsert le x l` places `x` before the first element `y` with `le x y`;
since the sort below inserts earlier elements into the sorted list of later
elements, an element is placed before every equal-key element that followed it,
which is exactly stability. -/

def sInsert (le : α → α → Bool) (x : α) : List α → List α
  | [] => [x]
  | y :: ys => if le x y then x :: y :: ys else y :: sInsert le x ys

def sSort (le : α → α → Bool) : List α → List α
  | [] => []
  | x :: xs => sInsert le x (sSort le xs)

theorem sInsert_perm (le : α → α → Bool) (x : α) (l : List α) :
    (sInsert le x l).Perm (x :: l) := by
  induction l with
  | nil => simp [sInsert]
  | cons y ys ih =>
    by_cases h : le x y
    · simp [sInsert, h]
    · simp only [sInsert, h, if_neg]
      exact (ih.cons y).trans (List.Perm.swap x y ys)

theorem sSort_perm (le : α → α → Bool) (l : List α) : (sSort le l).Perm l := by
  induction l with
  | nil => simp [sSort]
  | cons x xs ih =>
    exact (sInsert_perm le x (sSort le xs)).trans (ih.cons x)

theorem mem_sSort {le : α → α → Bool} {l : List α} {a : α} :
    a ∈ sSort le l ↔ a ∈ l :=
  (sSort_perm le l).mem_iff

theorem length_sSort (le : α → α → Bool) (l : List α) :
    (sSort le l).length = l.length :=
  (sSort_perm le l).length_eq

theorem mem_sInsert {le : α → α → Bool} {l : List α} {x a : α} :
    a ∈ sInsert le x l ↔ a = x ∨ a ∈ l := by
  rw [(sInsert_perm le x l).mem_iff, List.mem_cons]

/-- Sort in descending order of a rational-valued key, stably. -/
def keyDescLe (k : α → ℚ) (a b : α) : Bool := decide (k b ≤ k a)

/-- `sortByKeyDesc k l` embeds Python's `l.sort(key=k, reverse=True)`
(equivalently `sorted(l, key=k, reverse=True)`), a stable descending sort. -/
def sortByKeyDesc (k : α → ℚ) (l : List α) : List α := sSort (keyDescLe k) l

theorem sInsert_pairwise_keyDesc (k : α → ℚ) (x : α) {l : List α}
    (h : l.Pairwise (fun a b => k b ≤ k a)) :
    (sInsert (keyDescLe k) x l).Pairwise (fun a b => k b ≤ k a) := by
  induction l with
  | nil => simp [sInsert]
  | cons y ys ih =>
    rcases List.pairwise_cons.mp h with ⟨hy, hys⟩
    by_cases hle : keyDescLe k x y
    · have hxy : k y ≤ k x := of_decide_eq_true hle
      simp only [sInsert, hle, if_pos]
      refine List.pairwise_cons.mpr ⟨?_, h⟩
      intro z hz
      rcases List.mem_cons.mp hz with rfl | hz
      · exact hxy
      · exact le_trans (hy z hz) hxy
    · have hyx : k x ≤ k y := le_of_lt (lt_of_not_le (of_decide_eq_false (eq_false_of_ne_true hle)))
      simp only [sInsert, hle, if_neg]
      refine List.pairwise_cons.mpr ⟨?_, ih hys⟩
      intro z hz
      rcases mem_sInsert.mp hz with rfl | hz
      · exact hyx
      · exact hy z hz

theorem sortByKeyDesc_pairwise (k : α → ℚ) (l : List α) :
    (sortByKeyDesc k l).Pairwise (fun a b => k b ≤ k a) := by
  induction l with
  | nil => simp [sortByKeyDesc, sSort]
  | cons x xs ih => exact sInsert_pairwise_keyDesc k x ih

/-- The lexicographic order that a stable descending sort realises: strictly
larger key first, and among equal keys the original position (`idx`) first. -/
def StableLex (k : α → ℚ) (idx : α → ℕ) (a b : α) : Prop :=
  k b < k a ∨ (k a = k b ∧ idx a < idx b)

theorem sInsert_pairwise_stableLex (k : α → ℚ) (idx : α → ℕ) (x : α) {l : List α}
    (h : l.Pairwise (StableLex k idx)) (hx : ∀ y ∈ l, idx x < idx y) :
    (sInsert (keyDescLe k) x l).Pairwise (StableLex k idx) := by
  induction l with
  | nil => simp [sInsert]
  | cons y ys ih =>
    rcases List.pairwise_cons.mp h with ⟨hy, hys⟩
    by_cases hle : keyDescLe k x y
    · have hxy : k y ≤ k x := of_decide_eq_true hle
      simp only [sInsert, hle, if_pos]
      refine List.pairwise_cons.mpr ⟨?_, h⟩
      intro z hz
      rcases List.mem_cons.mp hz with hzy | hz
      · subst hzy
        rcases lt_or_eq_of_le hxy with hlt | heq
        · exact Or.inl hlt
        · exact Or.inr ⟨heq.symm, hx z (List.mem_cons_self _ _)⟩
      · have hzy : k z ≤ k y := by
          rcases hy z hz with hlt | ⟨heq, _⟩
          · exact le_of_lt hlt
          · exact le_of_eq heq.symm
        rcases lt_or_eq_of_le (le_trans hzy hxy) with hlt | heq
        · exact Or.inl hlt
        · exact Or.inr ⟨heq.symm, hx z (List.mem_cons_of_mem y hz)⟩
    · have hyx : k x < k y := lt_of_not_le (of_decide_eq_false (eq_false_of_ne_true hle))
      simp only [sInsert, hle, if_neg]
      refine List.pairwise_cons.mpr ⟨?_, ih hys (fun z hz => hx z (List.mem_cons_of_mem y hz))⟩
      intro z hz
      rcases mem_sInsert.mp hz with rfl | hz
      · exact Or.inl hyx
      · exact hy z hz

theorem sortByKeyDesc_pairwise_stableLex (k : α → ℚ) (idx : α → ℕ) (l : List α)
    (h : l.Pairwise (fun a b => idx a < idx b)) :
    (sortByKeyDesc k l).Pairwise (StableLex k idx) := by
  induction l with
  | nil => simp [sortByKeyDesc, sSort]
  | cons x xs ih =>
    rcases List.pairwise_cons.mp h with ⟨hx, hxs⟩
    refine sInsert_pairwise_stableLex k idx x (ih hxs) ?_
    intro y hy
    exact hx y (mem_sSort.mp hy)

theorem map_sInsert (f : β → α) (le : α → α → Bool) (le' : β → β → Bool)
    (hle : ∀ a b, le' a b = le (f a) (f b)) (x : β) (l : List β) :
    (sInsert le' x l).map f = sInsert le (f x) (l.map f) := by
  induction l with
  | nil => simp [sInsert]
  | cons y ys ih =>
    by_cases h : le' x y
    · have : le (f x) (f y) := by rw [← hle]; exact h
      simp [sInsert, h, this]
    · have : ¬ le (f x) (f y) := by rw [← hle]; exact h
      simp [sInsert, h, this, ih]

theorem map_sSort (f : β → α) (le : α → α → Bool) (le' : β → β → Bool)
    (hle : ∀ a b, le' a b = le (f a) (f b)) (l : List β) :
    (sSort le' l).map f = sSort le (l.map f) := by
  induction l with
  | nil => simp [sSort]
  | cons x xs ih =>
    simp only [sSort, List.map_cons]
    rw [map_sInsert f le le' hle, ih]

/-- Indices in `List.enumFrom n l` are at least `n`. -/
theorem le_fst_of_mem_enumFrom {l : List α} {n : ℕ} {p : ℕ × α}
    (h : p ∈ l.enumFrom n) : n ≤ p.1 := by
  induction l generalizing n with
  | nil => simp [List.enumFrom] at h
  | cons x xs ih =>
    rcases List.mem_cons.mp h with rfl | h
    · exact le_refl n
    · exact le_trans (Nat.le_succ n) (ih h)

theorem pairwise_fst_enumFrom (l : List α) (n : ℕ) :
    (l.enumFrom n).Pairwise (fun a b => a.1 < b.1) := by
  induction l generalizing n with
  | nil => simp [List.enumFrom]
  | cons x xs ih =>
    refine List.pairwise_cons.mpr ⟨?_, ih (n + 1)⟩
    intro p hp
    exact lt_of_lt_of_le (Nat.lt_succ_self n) (le_fst_of_mem_enumFrom hp)

theorem pairwise_fst_enum (l : List α) :
    l.enum.Pairwise (fun a b => a.1 < b.1) :=
  pairwise_fst_enumFrom l 0

/-! ## Feature encoder — `zkml/data_processing.py`, `encode_features`

A raw pandas column is either numeric (float64/int64 dtype; NaN cells are
`none`) or categorical (object dtype; the code runs `.astype(str)` before any
categorical handling, so cells are modelled directly as the resulting strings —
a raw NaN has already become the string "nan").  A frame is an association list
from column name to column, and the `encoders` dict is modelled with one field
per kind of entry it holds: `LabelEncoder`s keyed by column name, the
`f'{col}_median'` fill values keyed by column name, and the single
`StandardScaler` holding per-numeric-column `(mean_, scale_)` parameters
(matched here by column name; with an identical column schema at fit and
transform time, as in every call site, this coincides with sklearn's positional
matching). -/

/-- Python string comparison: lexicographic on code points. -/
def strLeB (a b : String) : Bool :=
  let rec go : List Char → List Char → Bool
    | [], _ => true
    | _ :: _, [] => false
    | c :: cs, d :: ds =>
      if c.val < d.val then true else if d.val < c.val then false else go cs ds
  go a.data b.data

inductive RawCol where
  | num (cells : List (Option ℚ))
  | cat (cells : List String)
deriving DecidableEq

/-- An association list from column name to raw column, modelling a DataFrame. -/
def Frame : Type := List (String × RawCol)

/-- A cell of the encoded output frame: a scaled numeric value, an integer
category code, or a raw categorical value passed through unencoded (the
transform-mode branch taken when no `LabelEncoder` is stored for the column). -/
inductive EncCell where
  | rat (x : ℚ)
  | code (z : ℤ)
  | raw (s : String)
deriving DecidableEq

/-- The `encoders` dict built by fit and consumed by transform. -/
structure Encoders where
  classesOf : String → Option (List String)
  medianOf : String → Option ℚ
  scaler : Option (String → ℚ × ℚ)

/-- `encoders = {}` (no fitted state). -/
def emptyEncoders : Encoders := ⟨fun _ => none, fun _ => none, none⟩

/-- `sklearn.LabelEncoder.fit`: `classes_` is the sorted list of distinct
observed values (`np.unique`). -/
def labelEncoderClasses (xs : List String) : List String := sSort strLeB xs.dedup

/-- `LabelEncoder.transform([v])[0]` for `v ∈ classes_`: the index of `v` in
the sorted `classes_` array. -/
def labelCode (classes : List String) (v : String) : ℤ := classes.indexOf v

/-- `LabelEncoder.fit_transform` over a column. -/
def labelFitTransform (xs : List String) : List ℤ :=
  xs.map (labelCode (labelEncoderClasses xs))

/-- The transform-mode cell encoding
`le.transform([x])[0] if x in le.classes_ else -1`. -/
def labelTransformOr (classes : List String) (v : String) : ℤ :=
  if v ∈ classes then labelCode classes v else -1

/-- `pandas.Series.median()` over the non-null values (skipna): middle element
of the sorted values, or the mean of the two middle elements.  (The all-NaN
case, where pandas yields NaN, is kept out of scope by hypotheses on fit
inputs; this function then returns its `getD` default.) -/
def listMedian (xs : List ℚ) : ℚ :=
  let s := sSort (fun a b => decide (a ≤ b)) xs
  let n := s.length
  if n % 2 = 1 then s.getD (n / 2) 0
  else (s.getD (n / 2 - 1) 0 + s.getD (n / 2) 0) / 2

def listMean (xs : List ℚ) : ℚ := xs.sum / xs.length

/-- Population variance (`ddof = 0`), as `StandardScaler.fit` computes `var_`.
`scale_` is `sqrt var_` (or `1.0` when `var_` is zero), which is irrational in
general; the embeddings below therefore take the per-column scale as a
parameter, constrained where needed by `scale ^ 2 = listVar ...`. -/
def listVar (xs : List ℚ) : ℚ :=
  (xs.map (fun x => (x - listMean xs) ^ 2)).sum / xs.length

/-- Fit-time handling of one numeric column: store the median of the non-null
cells and fill the NaN cells with it (`df_encoded[col].fillna(median_val)`). -/
def fitNumCol (cells : List (Option ℚ)) : ℚ × List ℚ :=
  let m := listMedian (cells.filterMap id)
  (m, cells.map (fun v => v.getD m))

/-- `StandardScaler` cell transform: `(x - mean_) / scale_`. -/
def scaleCell (mean scale : ℚ) (x : ℚ) : ℚ := (x - mean) / scale

def RawCol.length : RawCol → ℕ
  | .num cells => cells.length
  | .cat cells => cells.length

/-- `df[feature_cols]`: select the listed columns (the caller guards that all
are present). -/
def selectCols (df : Frame) (cols : List String) : Frame :=
  cols.map (fun c => (c, ((df : List (String × RawCol)).lookup c).getD (.num [])))

/-- Fit-mode encoding of one selected column. -/
def encodeColFit (scaleOf : String → ℚ) (c : String) : RawCol → List EncCell
  | .cat cells => (labelFitTransform cells).map EncCell.code
  | .num cells =>
    let filled := (fitNumCol cells).2
    let mean := listMean filled
    filled.map (fun x => EncCell.rat (scaleCell mean (scaleOf c) x))

/-- The `LabelEncoder` entries stored by a fit over `df`. -/
def fitClasses (df : Frame) : String → Option (List String) := fun c =>
  match (df : List (String × RawCol)).lookup c with
  | some (.cat cells) => some (labelEncoderClasses cells)
  | _ => none

/-- The `f'{col}_median'` entries stored by a fit over `df`. -/
def fitMedian (df : Frame) : String → Option ℚ := fun c =>
  match (df : List (String × RawCol)).lookup c with
  | some (.num cells) => some (listMedian (cells.filterMap id))
  | _ => none

/-- The `StandardScaler` parameters stored by a fit over `df`: per numeric
column, the mean of the median-filled cells and the externally supplied scale.
(The scaler holds entries only for numeric columns; other names get an inert
default.) -/
def fitScaler (df : Frame) (scaleOf : String → ℚ) : String → ℚ × ℚ := fun c =>
  match (df : List (String × RawCol)).lookup c with
  | some (.num cells) => (listMean (fitNumCol cells).2, scaleOf c)
  | _ => (0, 1)

def fitEncoders (df : Frame) (scaleOf : String → ℚ) : Encoders :=
  ⟨fitClasses df, fitMedian df, some (fitScaler df scaleOf)⟩

/-- Transform-mode encoding of one selected column, mirroring the guards in the
source: a categorical column with no stored `LabelEncoder` is left as its raw
values; a numeric column is NaN-filled with `encoders.get(f'{col}_median', 0)`
and scaled only if a scaler is stored. -/
def encodeColTransform (enc : Encoders) (c : String) : RawCol → List EncCell
  | .cat cells =>
    match enc.classesOf c with
    | some classes => cells.map (fun v => EncCell.code (labelTransformOr classes v))
    | none => cells.map EncCell.raw
  | .num cells =>
    let m := (enc.medianOf c).getD 0
    let filled := cells.map (fun v => v.getD m)
    match enc.scaler with
    | some sc => filled.map (fun x => EncCell.rat (scaleCell (sc c).1 (sc c).2 x))
    | none => filled.map EncCell.rat

/-- Exceptions `encode_features` can raise.  `keyError` is pandas' error for
`df[feature_cols]` with a column absent from `df`.  `notFittedError` is
sklearn's `NotFittedError`, named by the spec for transform-with-no-state; it
exists here so that claim can be stated, and the theorems show the embedded
code never produces it (every encoder access is guarded). -/
inductive EncodeError where
  | keyError
  | notFittedError
deriving DecidableEq

/-- `encode_features(df, feature_cols, fit, encoders)`.  In fit mode the
call sites pass `encoders=None` (an empty dict); the returned dict is built
from the fitted column statistics.  `scaleOf` supplies `StandardScaler.scale_`
per numeric column (see `listVar`). -/
def encode_features (df : Frame) (feature_cols : List String) (fitMode : Bool)
    (enc : Encoders) (scaleOf : String → ℚ) :
    Except EncodeError (List (String × List EncCell) × Encoders) :=
  if feature_cols.all (fun c => ((df : List (String × RawCol)).lookup c).isSome) then
    let sub := selectCols df feature_cols
    if fitMode then
      .ok (sub.map (fun p => (p.1, encodeColFit scaleOf p.1 p.2)), fitEncoders sub scaleOf)
    else
      .ok (sub.map (fun p => (p.1, encodeColTransform enc p.1 p.2)), enc)
  else
    .error .keyError

/-- The single-record frame holding row `i` of `df`, as the serving path
re-presents one raw record to the encoder. -/
def rowCol (i : ℕ) : RawCol → RawCol
  | .num cells => .num [cells.getD i none]
  | .cat cells => .cat [cells.getD i "nan"]

def rowOf (df : Frame) (i : ℕ) : Frame :=
  (df : List (String × RawCol)).map (fun p => (p.1, rowCol i p.2))

/-! ## Scorer — `zkml/train_model.py`, `credit_score_from_proba` -/

/-- Python `int()` on a float: truncation toward zero. -/
def ratTrunc (q : ℚ) : ℤ := if 0 ≤ q then ⌊q⌋ else ⌈q⌉

/-- `np.clip(x, lo, hi)`. -/
def npClip (x lo hi : ℚ) : ℚ := min (max x lo) hi

/-- `credit_score_from_proba(proba)` with the default bounds
`min_score=300`, `max_score=850`:
`int(np.clip(max_score - proba * (max_score - min_score), min_score, max_score))`. -/
def credit_score_from_proba (proba : ℚ) : ℤ :=
  ratTrunc (npClip (850 - proba * (850 - 300)) 300 850)

/-- Modelled from the spec: `creditScore = round(clamp(850 − probability × 550,
300, 850))`, with `round` as rounding to the nearest integer (`⌊x + 1/2⌋`; at
the input where this is compared with the code the value is not a half-integer
in dispute, so the round-half convention is immaterial).  This definition
follows the spec's words, for comparison with `credit_score_from_proba`. -/
def creditScoreSpec (p : ℚ) : ℤ := round (npClip (850 - p * 550) 300 850)

/-! ## Explainer — `zkml/explainability.py`, `explain_prediction`,
and the formatting loop of the `/prove` handler -/

/-- One entry of the `impacts` list:
`{'feature': ..., 'impact': float(shap_val), 'abs_impact': float(abs(shap_val))}`. -/
structure Impact where
  feature : String
  impact : ℚ
  abs_impact : ℚ
deriving DecidableEq

/-- The `impacts` list built from `zip(feature_names, shap_values)`. -/
def impactsOf (shap : List (String × ℚ)) : List Impact :=
  shap.map (fun p => ⟨p.1, p.2, |p.2|⟩)

/-- `impacts.sort(key=lambda x: x['abs_impact'], reverse=True)` then
`impacts[:3]`. -/
def top_impacts (shap : List (String × ℚ)) : List Impact :=
  (sortByKeyDesc (fun t => t.abs_impact) (impactsOf shap)).take 3

/-- `explain_prediction(model, X, feature_names)`: the prediction probability
and the SHAP values are outputs of external libraries (LightGBM, shap) and are
passed in; the function pairs them with the feature names and ranks them. -/
def explain_prediction (proba : ℚ) (shap_values : List ℚ)
    (feature_names : List String) : ℚ × List Impact :=
  (proba, top_impacts (feature_names.zip shap_values))

/-- The fallback attribution of `explain_prediction` when per-instance SHAP
fails: `shap_values = importance / importance.sum() * (proba - 0.5)`, with
`importance` the model's feature-importance vector. -/
def fallbackShap (importance : List ℚ) (proba : ℚ) : List ℚ :=
  importance.map (fun w => w / importance.sum * (proba - 1/2))

/-- Python `round(x)`: round half to even (banker's rounding). -/
def pyRound (q : ℚ) : ℤ :=
  let f := ⌊q⌋
  let r := q - f
  if r < 1/2 then f else if 1/2 < r then f + 1 else if f % 2 = 0 then f else f + 1

/-- Python `round(x, 4)`. -/
def round4 (q : ℚ) : ℚ := (pyRound (q * 10000) : ℚ) / 10000

/-- One formatted explanation of the `/prove` response:
`{"feature": ..., "impact": round(imp["impact"], 4),
  "direction": "increases" if imp["impact"] > 0 else "decreases"}`. -/
structure Explanation where
  feature : String
  impact : ℚ
  direction : String
deriving DecidableEq

def formatExplanation (imp : Impact) : Explanation :=
  ⟨imp.feature, round4 imp.impact, if 0 < imp.impact then "increases" else "decreases"⟩

def formatExplanations (tops : List Impact) : List Explanation :=
  tops.map formatExplanation

/-! ## Proof pipeline — `zkml/ezkl_pipeline.py`, `generate_proof`,
and the `/prove` handler `zkml/api/main.py`

The external `ezkl` binary is a black box; each invocation's outcome is an
environment input.  `subprocess.run(..., check=True)` raises
`CalledProcessError` on nonzero exit, `TimeoutExpired` on timeout and
`FileNotFoundError` when the binary is absent; `generate_proof` catches none of
these in a way that recovers (its `except` blocks re-`raise`), so they all
propagate to the caller.  The filesystem is a map from path to file size. -/

inductive ExtCall where
  | genWitness
  | prove
deriving DecidableEq

inductive ExtOutcome where
  | success
  | nonzeroExit
  | timeout
  | toolMissing
deriving DecidableEq

inductive StageError where
  | calledProcessError
  | timeoutExpired
  | fileNotFound
deriving DecidableEq

def outcomeError : ExtOutcome → Option StageError
  | .success => none
  | .nonzeroExit => some .calledProcessError
  | .timeout => some .timeoutExpired
  | .toolMissing => some .fileNotFound

/-- The JSON value read back from `proof.json`, as far as the handler's
extraction inspects it: a dict whose `"proof"` entry is absent, a dict with a
string `"proof"` key (or without), or a non-dict JSON value. -/
inductive ProofEntry where
  | missing
  | dict (inner : Option String)
  | nonDict
deriving DecidableEq

inductive ProofData where
  | dict (entry : ProofEntry)
  | nonDict
deriving DecidableEq

/-- `generate_proof(...)`: writes the input file, runs `ezkl gen-witness`, and
only on its success runs `ezkl prove`, then reads `proof.json` back.  It
performs no artifact-existence checks of its own.  The first component is the
trace of external-tool invocations, in order. -/
def generate_proof (env : ExtCall → ExtOutcome) (proofFile : Option ProofData) :
    List ExtCall × Except StageError ProofData :=
  match outcomeError (env .genWitness) with
  | some e => ([.genWitness], .error e)
  | none =>
    match outcomeError (env .prove) with
    | some e => ([.genWitness, .prove], .error e)
    | none =>
      match proofFile with
      | some pd => ([.genWitness, .prove], .ok pd)
      | none => ([.genWitness, .prove], .error .fileNotFound)

/-- The handler's proof-hex extraction:
`proof_hex = proof_data.get("proof", {}).get("proof", None)` and, if that is
`None`, `proof_hex = json.dumps(proof_data).encode().hex()` (modelled by
`hexFn`).  A non-dict value under the `"proof"` key makes the inner `.get`
raise `AttributeError` (the `.error` case, caught by the handler's `except`);
a non-dict `proof_data` fails the `isinstance` guard and leaves `proof_hex`
as `None`. -/
def extractProofHex (hexFn : ProofData → String) : ProofData → Except Unit (Option String)
  | .dict (.dict (some s)) => .ok (some s)
  | .dict (.dict none) => .ok (some (hexFn (.dict (.dict none))))
  | .dict .missing => .ok (some (hexFn (.dict .missing)))
  | .dict .nonDict => .error ()
  | .nonDict => .ok none

/-- The three artifact-existence checks the handler performs before attempting
a proof: `compiled.ezkl`, `settings.json`, `pk.key` under `models/ezkl/`. -/
def ezklArtifactsExist (fs : String → Option ℕ) : Bool :=
  (fs "models/ezkl/compiled.ezkl").isSome && (fs "models/ezkl/settings.json").isSome
    && (fs "models/ezkl/pk.key").isSome

/-- The witness artifact path the handler uses for a request:
`witness_path = EZKL_DIR / "witness.json"` — a fixed name, computed without
reference to the request. -/
def requestWitnessPath (request : List (String × ℚ)) : String :=
  "models/ezkl/witness.json"

/-- The proof artifact path the handler uses for a request:
`proof_path = EZKL_DIR / "proof.json"` — likewise fixed. -/
def requestProofPath (request : List (String × ℚ)) : String :=
  "models/ezkl/proof.json"

structure ProveResponse where
  score : ℤ
  default_probability : ℚ
  explanations : List Explanation
  proof_hex : Option String
  proof_available : Bool
deriving DecidableEq

/-- The `/prove` handler `prove_credit_score` from the point where the model
probability and per-instance SHAP values are in hand (both are external-model
outputs).  Returns the response and the trace of external-tool invocations.
`proof_hex`/`proof_available` start as `None`/`False`; any exception inside the
proof block is caught and logged, leaving them at those values. -/
def prove_credit_score (proba : ℚ) (shap_values : List ℚ)
    (feature_names : List String) (fs : String → Option ℕ)
    (env : ExtCall → ExtOutcome) (proofFile : Option ProofData)
    (hexFn : ProofData → String) : ProveResponse × List ExtCall :=
  let score := credit_score_from_proba proba
  let tops := (explain_prediction proba shap_values feature_names).2
  let explanations := formatExplanations tops
  if ezklArtifactsExist fs then
    let res := generate_proof env proofFile
    match res.2 with
    | .error _ => (⟨score, round4 proba, explanations, none, false⟩, res.1)
    | .ok pd =>
      match extractProofHex hexFn pd with
      | .error _ => (⟨score, round4 proba, explanations, none, false⟩, res.1)
      | .ok hx => (⟨score, round4 proba, explanations, hx, true⟩, res.1)
  else
    (⟨score, round4 proba, explanations, none, false⟩, [])

/-- `prepare_features`: build a one-row frame over `feature_names`, taking the
client-supplied value when present and the literal `0.0` otherwise
(`feature_dict[feat] = [0.0]`).  `input` is the request dict after pydantic's
`exclude_none`; every produced cell is a present float, never NaN. -/
def prepare_features (feature_names : List String) (input : String → Option ℚ) : Frame :=
  feature_names.map (fun f => (f, RawCol.num [some ((input f).getD 0)]))

/-! ## Claims -/

/-- C2, counterexample: at probability `p = 0.0009` the code returns
`int(849.505) = 849`, while the spec's `round(clamp(850 − p·550, 300, 850))`
is `850`.  The code truncates (`int()`), it does not round. -/
theorem claim2_counterexample :
    credit_score_from_proba (9/10000) = 849 ∧ creditScoreSpec (9/10000) = 850 ∧
      credit_score_from_proba (9/10000) ≠ creditScoreSpec (9/10000) := by
  have harg : (850 : ℚ) - (9/10000) * (850 - 300) = 169901/200 := by norm_num
  have harg' : (850 : ℚ) - (9/10000) * 550 = 169901/200 := by norm_num
  have hclip : npClip (169901/200) 300 850 = 169901/200 := by
    unfold npClip
    rw [max_eq_left (by norm_num), min_eq_left (by norm_num)]
  have h1 : credit_score_from_proba (9/10000) = 849 := by
    unfold credit_score_from_proba ratTrunc
    rw [harg, hclip, if_pos (by norm_num)]
    norm_num
  have h2 : creditScoreSpec (9/10000) = 850 := by
    unfold creditScoreSpec
    rw [harg', hclip, round_eq]
    norm_num
  exact ⟨h1, h2, by rw [h1, h2]; norm_num⟩

/-- C2, amended: for every probability `p` the score mapping returns
`⌊clamp(850 − p·550, 300, 850)⌋` (Python `int()` truncation, which on the
clamped value — always ≥ 300 — is the floor), it is monotonically
non-increasing in `p`, and it is exact at the boundaries:
`p = 0 ↦ 850` and `p = 1 ↦ 300`. -/
theorem claim2_score_floor_clamp :
    (∀ p : ℚ, credit_score_from_proba p = ⌊npClip (850 - p * 550) 300 850⌋) ∧
    (∀ p q : ℚ, p ≤ q → credit_score_from_proba q ≤ credit_score_from_proba p) ∧
    credit_score_from_proba 0 = 850 ∧ credit_score_from_proba 1 = 300 := by
  have hfloor : ∀ p : ℚ, credit_score_from_proba p = ⌊npClip (850 - p * 550) 300 850⌋ := by
    intro p
    have harg : (850 : ℚ) - p * (850 - 300) = 850 - p * 550 := by ring
    have h300 : (300 : ℚ) ≤ npClip (850 - p * 550) 300 850 :=
      le_min (le_max_right _ _) (by norm_num)
    unfold credit_score_from_proba ratTrunc
    rw [harg, if_pos (le_trans (by norm_num) h300)]
  refine ⟨hfloor, ?_, ?_, ?_⟩
  · intro p q hpq
    rw [hfloor p, hfloor q]
    apply Int.floor_le_floor
    apply min_le_min _ (le_refl (850 : ℚ))
    apply max_le_max _ (le_refl (300 : ℚ))
    have : p * 550 ≤ q * 550 := by
      apply mul_le_mul_of_nonneg_right hpq
      norm_num
    linarith
  · rw [hfloor 0]
    have : npClip (850 - 0 * 550) 300 850 = 850 := by
      unfold npClip
      rw [max_eq_left (by norm_num), min_eq_left (by norm_num)]
      norm_num
    rw [this]
    norm_num
  · rw [hfloor 1]
    have : npClip (850 - 1 * 550) 300 850 = 300 := by
      unfold npClip
      rw [max_eq_right (by norm_num), min_eq_left (by norm_num)]
    rw [this]
    norm_num

/-- Witness for C2's amended theorem: monotonicity applied at `0 ≤ 1`. -/
theorem claim2_score_floor_clamp_witness :
    (0 : ℚ) ≤ 1 ∧ credit_score_from_proba 1 ≤ credit_score_from_proba 0 :=
  ⟨by norm_num, claim2_score_floor_clamp.2.1 0 1 (by norm_num)⟩

/-- C3: the handler computes the witness and proof artifact paths without any
reference to the request — every request, however distinct, shares the single
fixed pair `models/ezkl/witness.json` / `models/ezkl/proof.json`.  (This
evaluates the code at the failing situation of the claim: two distinct
concurrent requests receive identical artifact paths.) -/
theorem claim3_fixed_artifact_paths :
    ∀ r1 r2 : List (String × ℚ),
      requestWitnessPath r1 = requestWitnessPath r2 ∧
      requestProofPath r1 = requestProofPath r2 :=
  fun _ _ => ⟨rfl, rfl⟩

/-- C6: a categorical value absent from the stored fit-time classes maps to the
sentinel `-1`, totally (no crash), and every real category code assigned at fit
time is a non-negative index, hence never equal to the sentinel. -/
theorem claim6_unseen_category_sentinel :
    ∀ (xs : List String) (v : String),
      v ∉ labelEncoderClasses xs →
      labelTransformOr (labelEncoderClasses xs) v = -1 ∧
      ∀ c ∈ labelFitTransform xs, 0 ≤ c ∧ c ≠ -1 := by
  intro xs v hv
  constructor
  · unfold labelTransformOr
    rw [if_neg hv]
  · intro c hc
    rcases List.mem_map.mp hc with ⟨w, _, rfl⟩
    have h0 : (0 : ℤ) ≤ labelCode (labelEncoderClasses xs) w := Int.natCast_nonneg _
    exact ⟨h0, by omega⟩

/-- Witness for C6: the value `"b"`, unseen by a fit over `["a"]`, maps to the
sentinel `-1`, and the fit-time code of `"a"` is `0 ≠ -1`. -/
theorem claim6_unseen_category_sentinel_witness :
    ("b" ∉ labelEncoderClasses ["a"]) ∧
    labelTransformOr (labelEncoderClasses ["a"]) "b" = -1 := by
  have h : ("b" : String) ∉ labelEncoderClasses ["a"] := by decide
  exact ⟨h, (claim6_unseen_category_sentinel ["a"] "b" h).1⟩

/-- C1: whenever the proof pipeline fails — the handler's artifact-existence
check fails (missing prior-stage artifact), or `generate_proof` raises
(`FileNotFoundError` for a missing toolchain, `CalledProcessError` for a
nonzero exit, `TimeoutExpired` for a timeout, all modelled as its `.error`
outcomes) — the `/prove` handler still returns the already-computed score and
explanations, with `proof_available = false` and `proof_hex = null`; and in
every response, `proof_hex` is non-null only when `proof_available` is true. -/
theorem claim1_proof_failure_degrades :
    (∀ (proba : ℚ) (shap_values : List ℚ) (feature_names : List String)
       (fs : String → Option ℕ) (env : ExtCall → ExtOutcome)
       (proofFile : Option ProofData) (hexFn : ProofData → String),
       (ezklArtifactsExist fs = false ∨
          ∃ e, (generate_proof env proofFile).2 = Except.error e) →
       (prove_credit_score proba shap_values feature_names fs env proofFile hexFn).1.proof_available
           = false ∧
       (prove_credit_score proba shap_values feature_names fs env proofFile hexFn).1.proof_hex
           = none ∧
       (prove_credit_score proba shap_values feature_names fs env proofFile hexFn).1.score
           = credit_score_from_proba proba ∧
       (prove_credit_score proba shap_values feature_names fs env proofFile hexFn).1.explanations
           = formatExplanations (top_impacts (feature_names.zip shap_values))) ∧
    (∀ (proba : ℚ) (shap_values : List ℚ) (feature_names : List String)
       (fs : String → Option ℕ) (env : ExtCall → ExtOutcome)
       (proofFile : Option ProofData) (hexFn : ProofData → String),
       (prove_credit_score proba shap_values feature_names fs env proofFile hexFn).1.proof_hex.isSome
           = true →
       (prove_credit_score proba shap_values feature_names fs env proofFile hexFn).1.proof_available
           = true) := by
  constructor
  · intro proba shap_values feature_names fs env proofFile hexFn hfail
    rcases hfail with hfs | ⟨e, he⟩
    · simp [prove_credit_score, hfs, explain_prediction]
    · cases hfs : ezklArtifactsExist fs
      · simp [prove_credit_score, hfs, explain_prediction]
      · simp [prove_credit_score, hfs, he, explain_prediction]
  · intro proba shap_values feature_names fs env proofFile hexFn hsome
    cases hfs : ezklArtifactsExist fs
    · simp [prove_credit_score, hfs] at hsome
    · cases hres : (generate_proof env proofFile).2 with
      | error e => simp [prove_credit_score, hfs, hres] at hsome
      | ok pd =>
        cases hex : extractProofHex hexFn pd with
        | error u => simp [prove_credit_score, hfs, hres, hex] at hsome
        | ok hx => simp [prove_credit_score, hfs, hres, hex]

/-- Witness for C1: with no artifacts on disk, the handler degrades to
`proof_available = false`, `proof_hex = null`, score and explanations intact. -/
theorem claim1_proof_failure_degrades_witness :
    ezklArtifactsExist (fun _ => none) = false ∧
    (prove_credit_score (1/2) [] [] (fun _ => none) (fun _ => ExtOutcome.success) none
        (fun _ => "")).1.proof_available = false ∧
    (prove_credit_score (1/2) [] [] (fun _ => none) (fun _ => ExtOutcome.success) none
        (fun _ => "")).1.proof_hex = none ∧
    (prove_credit_score (1/2) [] [] (fun _ => none) (fun _ => ExtOutcome.success) none
        (fun _ => "")).1.score = credit_score_from_proba (1/2) := by
  have h := claim1_proof_failure_degrades.1 (1/2) [] [] (fun _ => none)
    (fun _ => ExtOutcome.success) none (fun _ => "") (Or.inl rfl)
  exact ⟨rfl, h.1, h.2.1, h.2.2.1⟩

/-- `generate_proof` always starts by invoking the external witness-generation
tool, whatever the environment: it performs no prerequisite checks. -/
theorem generate_proof_head_genWitness (env : ExtCall → ExtOutcome)
    (proofFile : Option ProofData) :
    (generate_proof env proofFile).1.head? = some ExtCall.genWitness := by
  cases h1 : env ExtCall.genWitness <;> cases h2 : env ExtCall.prove <;>
    cases proofFile <;> simp [generate_proof, outcomeError, h1, h2]

/-- C9, counterexample: `generate_proof` performs no artifact checks — invoked
while the compiled-circuit artifact is absent (so the external tool exits
nonzero), it still issues the `gen-witness` invocation and fails with a
subprocess error (`CalledProcessError`); `StageError` has no
missing-prerequisite constructor because the code documents none.  Moreover
the handler's guard checks only existence, not non-emptiness: with
`compiled.ezkl` present but empty (size 0), the external tool is invoked. -/
theorem claim9_counterexample :
    (generate_proof (fun _ => ExtOutcome.nonzeroExit) none).1 = [ExtCall.genWitness] ∧
    (generate_proof (fun _ => ExtOutcome.nonzeroExit) none).2
        = Except.error StageError.calledProcessError ∧
    (prove_credit_score 0 [] []
        (fun p => if p = "models/ezkl/compiled.ezkl" then some 0 else some 1)
        (fun _ => ExtOutcome.nonzeroExit) none (fun _ => "")).2
        = [ExtCall.genWitness] := by
  refine ⟨rfl, rfl, ?_⟩
  have hfs : ezklArtifactsExist
      (fun p => if p = "models/ezkl/compiled.ezkl" then some 0 else some 1) = true := by
    decide
  simp [prove_credit_score, hfs, generate_proof, outcomeError]

/-- C9, amended: before attempting a proof the handler checks that the
compiled circuit, settings and proving key exist; if any is missing it skips
the proof stages entirely (no external invocation, `proof_available = false`),
logging a warning rather than failing with a documented missing-prerequisite
error.  Non-emptiness is never checked, and `generate_proof` itself checks
nothing: whenever the existence check passes, the external witness-generation
tool is invoked unconditionally. -/
theorem claim9_existence_check_only :
    ∀ (proba : ℚ) (shap_values : List ℚ) (feature_names : List String)
      (fs : String → Option ℕ) (env : ExtCall → ExtOutcome)
      (proofFile : Option ProofData) (hexFn : ProofData → String),
      (ezklArtifactsExist fs = false →
        (prove_credit_score proba shap_values feature_names fs env proofFile hexFn).2 = [] ∧
        (prove_credit_score proba shap_values feature_names fs env proofFile hexFn).1.proof_available
            = false) ∧
      (ezklArtifactsExist fs = true →
        (prove_credit_score proba shap_values feature_names fs env proofFile hexFn).2
            = (generate_proof env proofFile).1 ∧
        (generate_proof env proofFile).1.head? = some ExtCall.genWitness) := by
  intro proba shap_values feature_names fs env proofFile hexFn
  constructor
  · intro hfs
    simp [prove_credit_score, hfs]
  · intro hfs
    refine ⟨?_, generate_proof_head_genWitness env proofFile⟩
    cases hres : (generate_proof env proofFile).2 with
    | error e => simp [prove_credit_score, hfs, hres]
    | ok pd =>
      cases hex : extractProofHex hexFn pd with
      | error u => simp [prove_credit_score, hfs, hres, hex]
      | ok hx => simp [prove_credit_score, hfs, hres, hex]

/-- Witness for C9's amended theorem: with no artifacts the handler makes no
external call; with all three artifacts present it runs `generate_proof`. -/
theorem claim9_existence_check_only_witness :
    ezklArtifactsExist (fun _ => none) = false ∧
    (prove_credit_score 0 [] [] (fun _ => none) (fun _ => ExtOutcome.success) none
        (fun _ => "")).2 = [] ∧
    ezklArtifactsExist (fun _ => some 1) = true ∧
    (prove_credit_score 0 [] [] (fun _ => some 1) (fun _ => ExtOutcome.success) none
        (fun _ => "")).2
      = (generate_proof (fun _ => ExtOutcome.success)
          (none : Option ProofData)).1 := by
  refine ⟨rfl, ?_, rfl, ?_⟩
  · exact ((claim9_existence_check_only 0 [] [] (fun _ => none)
      (fun _ => ExtOutcome.success) none (fun _ => "")).1 rfl).1
  · exact ((claim9_existence_check_only 0 [] [] (fun _ => some 1)
      (fun _ => ExtOutcome.success) none (fun _ => "")).2 rfl).1

/-- C10, counterexample: with feature importances `[2, 1, 0]` and probability
`0.8`, the fallback attributions are `[0.2, 0.1, 0]`.  The zero-importance
feature gets impact `0`, which does not carry the sign of `p − 0.5 = 0.3 > 0`,
and the three returned attributions are labelled
`increases, increases, decreases` — not identical. -/
theorem claim10_counterexample :
    formatExplanations (top_impacts (["a", "b", "c"].zip (fallbackShap [2, 1, 0] (4/5))))
        = [⟨"a", 1/5, "increases"⟩, ⟨"b", 1/10, "increases"⟩, ⟨"c", 0, "decreases"⟩] ∧
    (0 : ℚ) < (4/5 : ℚ) - 1/2 ∧ ¬ ((0 : ℚ) < 0) ∧
    ("increases" : String) ≠ "decreases" := by
  refine ⟨?_, by norm_num, by norm_num, by decide⟩
  have ha : |(1 : ℚ)/5| = 1/5 := abs_of_nonneg (by norm_num)
  have hb : |(1 : ℚ)/10| = 1/10 := abs_of_nonneg (by norm_num)
  norm_num [fallbackShap, top_impacts, impactsOf, sortByKeyDesc, sSort, sInsert, keyDescLe,
    formatExplanations, formatExplanation, round4, pyRound, ha, hb]

/-- C10, amended: in the fallback attribution path every feature with positive
importance receives an impact whose sign is the sign of `p − 0.5`, and a
zero-importance feature receives impact `0`; consequently, when every feature
importance is positive (so in particular no zero-importance feature can land in
the top 3), all returned attributions carry the identical direction label —
`"increases"` exactly when `p > 0.5`. -/
theorem claim10_fallback_uniform_direction :
    ∀ (importance : List ℚ) (p : ℚ) (names : List String),
      (∀ w ∈ importance, 0 < w) → importance ≠ [] →
      (∀ x ∈ fallbackShap importance p,
         (1/2 < p → 0 < x) ∧ (p < 1/2 → x < 0) ∧ (p = 1/2 → x = 0)) ∧
      (∀ e ∈ formatExplanations (top_impacts (names.zip (fallbackShap importance p))),
         e.direction = if 1/2 < p then "increases" else "decreases") ∧
      (∀ e1 ∈ formatExplanations (top_impacts (names.zip (fallbackShap importance p))),
       ∀ e2 ∈ formatExplanations (top_impacts (names.zip (fallbackShap importance p))),
         e1.direction = e2.direction) := by
  intro importance p names hpos hne
  have hsum : 0 < importance.sum := List.sum_pos importance hpos hne
  have hsign : ∀ x ∈ fallbackShap importance p,
      (1/2 < p → 0 < x) ∧ (p < 1/2 → x < 0) ∧ (p = 1/2 → x = 0) := by
    intro x hx
    rcases List.mem_map.mp hx with ⟨w, hw, rfl⟩
    have hw' : 0 < w / importance.sum := div_pos (hpos w hw) hsum
    refine ⟨?_, ?_, ?_⟩
    · intro hp
      exact mul_pos hw' (by linarith)
    · intro hp
      exact mul_neg_of_pos_of_neg hw' (by linarith)
    · intro hp
      rw [hp]
      ring
  have hdir : ∀ e ∈ formatExplanations (top_impacts (names.zip (fallbackShap importance p))),
      e.direction = if 1/2 < p then "increases" else "decreases" := by
    intro e he
    rcases List.mem_map.mp he with ⟨t, ht, rfl⟩
    have ht' : t ∈ sortByKeyDesc (fun u => u.abs_impact) (impactsOf (names.zip (fallbackShap importance p))) :=
      List.mem_of_mem_take ht
    have ht'' : t ∈ impactsOf (names.zip (fallbackShap importance p)) := mem_sSort.mp ht'
    rcases List.mem_map.mp ht'' with ⟨q, hq, rfl⟩
    have hx : q.2 ∈ fallbackShap importance p := (List.of_mem_zip hq).2
    rcases lt_trichotomy p (1/2) with hp | hp | hp
    · have hq2 : q.2 < 0 := ((hsign q.2 hx).2.1) hp
      rw [if_neg (not_lt.mpr (le_of_lt hp))]
      simp [formatExplanation, show ¬ (0 < q.2) from not_lt.mpr (le_of_lt hq2)]
    · have hq2 : q.2 = 0 := ((hsign q.2 hx).2.2) hp
      rw [if_neg (not_lt.mpr (le_of_eq hp))]
      simp [formatExplanation, hq2]
    · have hq2 : 0 < q.2 := ((hsign q.2 hx).1) hp
      rw [if_pos hp]
      simp [formatExplanation, hq2]
  refine ⟨hsign, hdir, ?_⟩
  intro e1 he1 e2 he2
  rw [hdir e1 he1, hdir e2 he2]

/-- Witness for C10's amended theorem, at importances `[1]`, `p = 1`,
names `["a"]`. -/
theorem claim10_fallback_uniform_direction_witness :
    (∀ w ∈ [(1 : ℚ)], 0 < w) ∧ ([(1 : ℚ)] ≠ []) ∧
    (∀ e1 ∈ formatExplanations (top_impacts (["a"].zip (fallbackShap [1] 1))),
     ∀ e2 ∈ formatExplanations (top_impacts (["a"].zip (fallbackShap [1] 1))),
       e1.direction = e2.direction) := by
  refine ⟨by norm_num, by simp, ?_⟩
  exact (claim10_fallback_uniform_direction [1] 1 ["a"] (by norm_num) (by simp)).2.2

/-- C5: for every request with at least 3 model features, the formatted
explanations are exactly 3; the returned attributions are sorted by descending
absolute impact (`abs_impact` really is `|impact|`), with ties broken by the
original feature declaration order (shown through the index-tagged form of the
same stable sort, to which `top_impacts` provably projects); and each
attribution's direction is `"increases"` exactly when its signed impact is
positive, a zero impact being labelled `"decreases"`. -/
theorem claim5_explanations_invariants :
    ∀ shap : List (String × ℚ), 3 ≤ shap.length →
      (formatExplanations (top_impacts shap)).length = 3 ∧
      (top_impacts shap).Pairwise (fun a b => b.abs_impact ≤ a.abs_impact) ∧
      (∀ t ∈ top_impacts shap, t.abs_impact = |t.impact|) ∧
      top_impacts shap
        = ((sortByKeyDesc (fun q => q.2.abs_impact) (impactsOf shap).enum).take 3).map
            Prod.snd ∧
      ((sortByKeyDesc (fun q => q.2.abs_impact) (impactsOf shap).enum).take 3).Pairwise
        (StableLex (fun q => q.2.abs_impact) Prod.fst) ∧
      (∀ t ∈ top_impacts shap,
         ((formatExplanation t).direction = "increases" ↔ 0 < t.impact) ∧
         (t.impact = 0 → (formatExplanation t).direction = "decreases") ∧
         ((formatExplanation t).direction = "increases" ∨
            (formatExplanation t).direction = "decreases")) := by
  intro shap hlen
  have hlen' : (sortByKeyDesc (fun t => t.abs_impact) (impactsOf shap)).length = shap.length := by
    rw [sortByKeyDesc, length_sSort, impactsOf, List.length_map]
  refine ⟨?_, ?_, ?_, ?_, ?_, ?_⟩
  · rw [formatExplanations, List.length_map, top_impacts, List.length_take, hlen']
    omega
  · exact (sortByKeyDesc_pairwise (fun t => t.abs_impact) (impactsOf shap)).sublist
      (List.take_sublist 3 _)
  · intro t ht
    have ht' : t ∈ impactsOf shap := mem_sSort.mp (List.mem_of_mem_take ht)
    rcases List.mem_map.mp ht' with ⟨q, _, rfl⟩
    rfl
  · rw [top_impacts, List.map_take]
    congr 1
    rw [sortByKeyDesc, sortByKeyDesc,
      map_sSort Prod.snd (keyDescLe fun t => t.abs_impact)
        (keyDescLe fun q => q.2.abs_impact) (fun a b => rfl) (impactsOf shap).enum,
      List.enum_map_snd]
  · exact (sortByKeyDesc_pairwise_stableLex (fun q => q.2.abs_impact) Prod.fst
      (impactsOf shap).enum (pairwise_fst_enum _)).sublist (List.take_sublist 3 _)
  · intro t _
    unfold formatExplanation
    by_cases h : 0 < t.impact
    · refine ⟨?_, ?_, ?_⟩
      · simp [h]
      · intro h0
        rw [h0] at h
        exact absurd h (lt_irrefl 0)
      · simp [h]
    · refine ⟨?_, ?_, ?_⟩
      · simp only [if_neg h]
        constructor
        · intro hs
          exact absurd hs (by decide)
        · intro hc
          exact absurd hc h
      · intro _
        simp [h]
      · simp [h]

/-- Witness for C5, on three concrete features. -/
theorem claim5_explanations_invariants_witness :
    3 ≤ ([("a", (1 : ℚ)), ("b", 2), ("c", 3)] : List (String × ℚ)).length ∧
    (formatExplanations (top_impacts [("a", (1 : ℚ)), ("b", 2), ("c", 3)])).length = 3 := by
  have h : 3 ≤ ([("a", (1 : ℚ)), ("b", 2), ("c", 3)] : List (String × ℚ)).length := by
    simp
  exact ⟨h, (claim5_explanations_invariants [("a", (1 : ℚ)), ("b", 2), ("c", 3)] h).1⟩

/-- C8, counterexample: transform mode with no fitted state (`encoders = {}`)
does not raise `NotFittedError` — it returns an encoded frame, with the
categorical column passed through as raw values and the numeric NaN filled
with the default `0`, unscaled. -/
theorem claim8_counterexample :
    encode_features [("grade", RawCol.cat ["A"]), ("amt", RawCol.num [none])]
        ["grade", "amt"] false emptyEncoders (fun _ => 1)
      = Except.ok ([("grade", [EncCell.raw "A"]), ("amt", [EncCell.rat 0])], emptyEncoders) ∧
    ∀ e : EncodeError,
      encode_features [("grade", RawCol.cat ["A"]), ("amt", RawCol.num [none])]
          ["grade", "amt"] false emptyEncoders (fun _ => 1) ≠ Except.error e := by
  have h1 : encode_features [("grade", RawCol.cat ["A"]), ("amt", RawCol.num [none])]
      ["grade", "amt"] false emptyEncoders (fun _ => 1)
      = Except.ok ([("grade", [EncCell.raw "A"]), ("amt", [EncCell.rat 0])], emptyEncoders) := by
    rfl
  refine ⟨h1, fun e he => ?_⟩
  rw [h1] at he
  exact Except.noConfusion he

/-- C8, amended: transform mode with no fitted state raises nothing; for any
frame containing all requested columns it succeeds, leaving every categorical
column unencoded (raw pass-through, the `if le:` guard being false) and every
numeric column NaN-filled with the default `0` and unscaled (the scaler guard
being false). -/
theorem claim8_transform_unfitted_passthrough :
    ∀ (df : Frame) (cols : List String) (scaleOf : String → ℚ),
      cols.all (fun c => ((df : List (String × RawCol)).lookup c).isSome) = true →
      encode_features df cols false emptyEncoders scaleOf
        = Except.ok ((selectCols df cols).map (fun p => (p.1,
            match p.2 with
            | RawCol.cat cells => cells.map EncCell.raw
            | RawCol.num cells => cells.map (fun v => EncCell.rat (v.getD 0)))),
            emptyEncoders) := by
  intro df cols scaleOf hall
  unfold encode_features
  rw [if_pos hall, if_neg (show ¬ (false = true) by simp)]
  simp only [Except.ok.injEq, Prod.mk.injEq, and_true]
  apply List.map_congr_left
  intro p _
  cases hp : p.2 with
  | cat cells => simp [encodeColTransform, emptyEncoders]
  | num cells => simp [encodeColTransform, emptyEncoders]

/-- Witness for C8's amended theorem, on a one-column frame. -/
theorem claim8_transform_unfitted_passthrough_witness :
    (["g"] : List String).all
        (fun c => (([("g", RawCol.cat ["x"])] : List (String × RawCol)).lookup c).isSome)
      = true ∧
    encode_features [("g", RawCol.cat ["x"])] ["g"] false emptyEncoders (fun _ => 1)
      = Except.ok ((selectCols [("g", RawCol.cat ["x"])] ["g"]).map (fun p => (p.1,
          match p.2 with
          | RawCol.cat cells => cells.map EncCell.raw
          | RawCol.num cells => cells.map (fun v => EncCell.rat (v.getD 0)))),
          emptyEncoders) :=
  ⟨rfl, claim8_transform_unfitted_passthrough [("g", RawCol.cat ["x"])] ["g"] (fun _ => 1) rfl⟩

theorem lookup_map_key {β : Type} (g : String → β) (l : List String) (c : String)
    (hc : c ∈ l) : (l.map (fun f => (f, g f))).lookup c = some (g c) := by
  induction l with
  | nil => simp at hc
  | cons x xs ih =>
    rcases List.mem_cons.mp hc with rfl | h
    · simp [List.lookup]
    · by_cases hx : c = x
      · subst hx
        simp [List.lookup]
      · have hbeq : (c == x) = false := beq_eq_false_iff_ne.mpr hx
        simp only [List.map_cons, List.lookup, hbeq]
        exact ih h

/-- C7, counterexample: with a stored fit-time median of `5` for column `x`
(and scaler mean `0`, scale `1`), a request missing `x` is encoded to `0` —
`prepare_features` substitutes the literal `0.0` — whereas substituting the
stored fill value would encode it to `5` (the value transform produces for a
NaN cell). -/
theorem claim7_counterexample :
    encode_features (prepare_features ["x"] (fun _ => none)) ["x"] false
        ⟨fun _ => none, fun _ => some 5, some (fun _ => (0, 1))⟩ (fun _ => 1)
      = Except.ok ([("x", [EncCell.rat 0])],
          ⟨fun _ => none, fun _ => some 5, some (fun _ => (0, 1))⟩) ∧
    encodeColTransform ⟨fun _ => none, fun _ => some 5, some (fun _ => (0, 1))⟩ "x"
        (RawCol.num [none]) = [EncCell.rat 5] ∧
    EncCell.rat 0 ≠ EncCell.rat 5 := by
  refine ⟨?_, ?_, by simp⟩
  · norm_num [encode_features, prepare_features, selectCols, encodeColTransform, scaleCell,
      List.lookup]
  · norm_num [encodeColTransform, scaleCell]

/-- C7, amended: `prepare_features` fills every feature absent from the
serve-time request with the literal `0.0`, so every cell reaching the encoder
is a present value and the stored fit-time median is never consulted for it:
the serve path encodes exactly the frame in which each missing feature has raw
value `0.0`, and the encoding of a present value does not depend on the stored
medians at all. -/
theorem claim7_missing_numeric_filled_zero :
    (∀ (feature_names : List String) (input : String → Option ℚ) (enc : Encoders)
       (scaleOf : String → ℚ),
       encode_features (prepare_features feature_names input) feature_names false enc scaleOf
         = Except.ok (feature_names.map (fun c =>
             (c, encodeColTransform enc c (RawCol.num [some ((input c).getD 0)]))), enc)) ∧
    (∀ (enc enc' : Encoders) (c : String) (x : ℚ),
       enc.classesOf = enc'.classesOf → enc.scaler = enc'.scaler →
       encodeColTransform enc c (RawCol.num [some x])
         = encodeColTransform enc' c (RawCol.num [some x])) := by
  constructor
  · intro feature_names input enc scaleOf
    have hall : feature_names.all
        (fun c => ((prepare_features feature_names input : List (String × RawCol)).lookup c).isSome)
        = true := by
      rw [List.all_eq_true]
      intro c hc
      rw [prepare_features, lookup_map_key _ feature_names c hc]
      rfl
    have hsel : selectCols (prepare_features feature_names input) feature_names
        = feature_names.map (fun c => (c, RawCol.num [some ((input c).getD 0)])) := by
      unfold selectCols
      apply List.map_congr_left
      intro c hc
      rw [prepare_features, lookup_map_key _ feature_names c hc]
      rfl
    unfold encode_features
    rw [if_pos hall, if_neg (show ¬ (false = true) by simp), hsel, List.map_map]
    rfl
  · intro enc enc' c x h1 h2
    have hform : ∀ E : Encoders, encodeColTransform E c (RawCol.num [some x])
        = (match E.scaler with
           | some sc => [EncCell.rat (scaleCell (sc c).1 (sc c).2 x)]
           | none => [EncCell.rat x]) := by
      intro E
      cases hs : E.scaler <;> simp [encodeColTransform, hs]
    rw [hform, hform, h2]

/-- Witness for C7's amended theorem: two encoder states differing only in
their stored medians encode a present `0.0` cell identically. -/
theorem claim7_missing_numeric_filled_zero_witness :
    (Encoders.classesOf ⟨fun _ => none, fun _ => some 5, none⟩
        = Encoders.classesOf ⟨fun _ => none, fun _ => none, none⟩) ∧
    (Encoders.scaler ⟨fun _ => none, fun _ => some 5, none⟩
        = Encoders.scaler ⟨fun _ => none, fun _ => none, none⟩) ∧
    encodeColTransform ⟨fun _ => none, fun _ => some 5, none⟩ "x" (RawCol.num [some 0])
      = encodeColTransform ⟨fun _ => none, fun _ => none, none⟩ "x" (RawCol.num [some 0]) :=
  ⟨rfl, rfl,
    claim7_missing_numeric_filled_zero.2 ⟨fun _ => none, fun _ => some 5, none⟩
      ⟨fun _ => none, fun _ => none, none⟩ "x" 0 rfl rfl⟩

theorem getD_map_of_lt (f : α → β) :
    ∀ (l : List α) (i : ℕ), i < l.length → ∀ (d : β) (d' : α),
      (l.map f).getD i d = f (l.getD i d') := by
  intro l
  induction l with
  | nil =>
    intro i hi
    simp at hi
  | cons x xs ih =>
    intro i hi d d'
    cases i with
    | zero => rfl
    | succ n =>
      simp only [List.map_cons, List.getD_cons_succ]
      exact ih n (by simpa using hi) d d'

theorem getD_mem_of_lt : ∀ (l : List α) (i : ℕ) (d : α), i < l.length → l.getD i d ∈ l := by
  intro l
  induction l with
  | nil =>
    intro i d hi
    simp at hi
  | cons x xs ih =>
    intro i d hi
    cases i with
    | zero => exact List.mem_cons_self _ _
    | succ n =>
      simp only [List.getD_cons_succ]
      exact List.mem_cons_of_mem x (ih n d (by simpa using hi))

theorem lookup_map_val (g : RawCol → RawCol) (df : List (String × RawCol)) (c : String) :
    (df.map (fun p => (p.1, g p.2))).lookup c = ((df.lookup c).map g : Option RawCol) := by
  induction df with
  | nil => rfl
  | cons p ps ih =>
    obtain ⟨k, v⟩ := p
    by_cases h : c = k
    · subst h
      simp [List.lookup]
    · have hbeq : (c == k) = false := beq_eq_false_iff_ne.mpr h
      simp only [List.map_cons, List.lookup, hbeq]
      exact ih

/-- Core of the fit/transform round trip, per column: re-encoding cell `i` of
a column in transform mode, under the statistics a fit over that column
stored, reproduces the cell the fit itself emitted. -/
theorem encodeCol_roundtrip (E : Encoders) (scaleOf : String → ℚ) (c : String)
    (col : RawCol) (i : ℕ) (hi : i < col.length)
    (hcat : ∀ cells, col = RawCol.cat cells →
      E.classesOf c = some (labelEncoderClasses cells))
    (hnum : ∀ cells, col = RawCol.num cells →
      E.medianOf c = some (listMedian (cells.filterMap id)) ∧
      ∃ sc, E.scaler = some sc ∧ sc c = (listMean (fitNumCol cells).2, scaleOf c)) :
    encodeColTransform E c (rowCol i col) = [(encodeColFit scaleOf c col).getD i (EncCell.rat 0)] := by
  cases col with
  | cat cells =>
    have hcls := hcat cells rfl
    have hi' : i < cells.length := by simpa [RawCol.length] using hi
    have hvmem : cells.getD i "nan" ∈ labelEncoderClasses cells := by
      unfold labelEncoderClasses
      rw [mem_sSort]
      exact List.mem_dedup.mpr (getD_mem_of_lt cells i "nan" hi')
    simp only [rowCol, encodeColTransform, hcls, List.map_cons, List.map_nil]
    unfold encodeColFit labelFitTransform
    rw [getD_map_of_lt EncCell.code _ i (by simpa using hi') (EncCell.rat 0) 0,
      getD_map_of_lt (labelCode (labelEncoderClasses cells)) cells i hi' 0 "nan",
      labelTransformOr, if_pos hvmem]
  | num cells =>
    obtain ⟨hmed, sc, hsc, hscc⟩ := hnum cells rfl
    have hi' : i < cells.length := by simpa [RawCol.length] using hi
    simp only [rowCol, encodeColTransform, hmed, hsc, Option.getD_some, List.map_cons,
      List.map_nil]
    unfold encodeColFit fitNumCol
    rw [getD_map_of_lt _ _ i (by simpa using hi') (EncCell.rat 0) 0,
      getD_map_of_lt (fun v => v.getD (listMedian (cells.filterMap id))) cells i hi' 0 none,
      hscc]
    simp [fitNumCol]

/-- C4: for every record contained in the fitting data (any row `i` of the
fitted frame), encoding it in transform mode with the `Encoders` produced by
the fit yields exactly the encoded vector the fit produced for that row.  The
hypotheses keep the model inside its faithful domain: every numeric column has
at least one non-null value (pandas' median of an all-NaN column is NaN, out
of scope), and row `i` exists in every column. -/
theorem claim4_fit_transform_roundtrip :
    ∀ (df : Frame) (cols : List String) (scaleOf : String → ℚ) (i : ℕ)
      (F : List (String × List EncCell)) (E : Encoders),
      (∀ c cells, (df : List (String × RawCol)).lookup c = some (RawCol.num cells) →
        cells.filterMap id ≠ []) →
      (∀ c col, (df : List (String × RawCol)).lookup c = some col → i < col.length) →
      encode_features df cols true emptyEncoders scaleOf = Except.ok (F, E) →
      encode_features (rowOf df i) cols false E scaleOf
        = Except.ok (F.map (fun p => (p.1, [p.2.getD i (EncCell.rat 0)])), E) := by
  intro df cols scaleOf i F E _hnn hrows hfit
  unfold encode_features at hfit
  cases hall : cols.all (fun c => ((df : List (String × RawCol)).lookup c).isSome) with
  | false =>
    rw [hall] at hfit
    simp at hfit
  | true =>
    rw [hall] at hfit
    simp only [if_pos, if_true, Except.ok.injEq, Prod.mk.injEq] at hfit
    obtain ⟨hF, hE⟩ := hfit
    have hsome : ∀ c ∈ cols, ∃ col, (df : List (String × RawCol)).lookup c = some col := by
      intro c hc
      have := List.all_eq_true.mp hall c hc
      exact Option.isSome_iff_exists.mp this
    have hallrow : cols.all
        (fun c => ((rowOf df i : List (String × RawCol)).lookup c).isSome) = true := by
      rw [List.all_eq_true]
      intro c hc
      obtain ⟨col, hcol⟩ := hsome c hc
      show ((rowOf df i : List (String × RawCol)).lookup c).isSome = true
      rw [show (rowOf df i : List (String × RawCol))
            = df.map (fun p => (p.1, rowCol i p.2)) from rfl,
        lookup_map_val (rowCol i) df c, hcol]
      rfl
    unfold encode_features
    rw [if_pos hallrow, if_neg (show ¬ (false = true) by simp)]
    rw [← hF, ← hE]
    simp only [Except.ok.injEq, Prod.mk.injEq, and_true]
    have hselrow : selectCols (rowOf df i) cols
        = cols.map (fun c =>
            (c, rowCol i (((df : List (String × RawCol)).lookup c).getD (RawCol.num [])))) := by
      unfold selectCols
      apply List.map_congr_left
      intro c hc
      obtain ⟨col, hcol⟩ := hsome c hc
      rw [show (rowOf df i : List (String × RawCol))
            = df.map (fun p => (p.1, rowCol i p.2)) from rfl,
        lookup_map_val (rowCol i) df c, hcol]
      simp
    rw [hselrow]
    unfold selectCols
    simp only [List.map_map]
    apply List.map_congr_left
    intro c hc
    obtain ⟨col, hcol⟩ := hsome c hc
    have hsub : (cols.map (fun c =>
          (c, ((df : List (String × RawCol)).lookup c).getD (RawCol.num [])))).lookup c
        = some (((df : List (String × RawCol)).lookup c).getD (RawCol.num [])) :=
      lookup_map_key
        (fun c => (((df : List (String × RawCol)).lookup c).getD (RawCol.num []))) cols c hc
    simp only [Function.comp_apply, Prod.mk.injEq, true_and]
    rw [hcol]
    simp only [Option.getD_some]
    apply encodeCol_roundtrip
    · exact hrows c col hcol
    · intro cells hcells
      subst hcells
      show fitClasses _ c = _
      unfold fitClasses
      rw [hsub, hcol]
      rfl
    · intro cells hcells
      subst hcells
      constructor
      · show fitMedian _ c = _
        unfold fitMedian
        rw [hsub, hcol]
        rfl
      · refine ⟨fitScaler (cols.map (fun c =>
            (c, ((df : List (String × RawCol)).lookup c).getD (RawCol.num [])))) scaleOf,
            rfl, ?_⟩
        unfold fitScaler
        rw [hsub, hcol]
        rfl

/-- Witness for C4, on a two-column frame (one categorical, one numeric with a
NaN-free cell), row 0. -/
theorem claim4_fit_transform_roundtrip_witness :
    (∀ c cells,
       (([("g", RawCol.cat ["a"]), ("x", RawCol.num [some 2])] : List (String × RawCol)).lookup c
           = some (RawCol.num cells)) → cells.filterMap id ≠ []) ∧
    (∀ c col,
       (([("g", RawCol.cat ["a"]), ("x", RawCol.num [some 2])] : List (String × RawCol)).lookup c
           = some col) → 0 < col.length) ∧
    encode_features [("g", RawCol.cat ["a"]), ("x", RawCol.num [some 2])] ["g", "x"] true
        emptyEncoders (fun _ => 1)
      = Except.ok ([("g", [EncCell.code 0]), ("x", [EncCell.rat 0])],
          fitEncoders (selectCols [("g", RawCol.cat ["a"]), ("x", RawCol.num [some 2])] ["g", "x"])
            (fun _ => 1)) ∧
    encode_features (rowOf [("g", RawCol.cat ["a"]), ("x", RawCol.num [some 2])] 0) ["g", "x"]
        false
        (fitEncoders (selectCols [("g", RawCol.cat ["a"]), ("x", RawCol.num [some 2])] ["g", "x"])
          (fun _ => 1)) (fun _ => 1)
      = Except.ok
          (([("g", [EncCell.code 0]), ("x", [EncCell.rat 0])] :
              List (String × List EncCell)).map (fun p => (p.1, [p.2.getD 0 (EncCell.rat 0)])),
            fitEncoders (selectCols [("g", RawCol.cat ["a"]), ("x", RawCol.num [some 2])] ["g", "x"])
              (fun _ => 1)) := by
  have hnn : ∀ c cells,
      (([("g", RawCol.cat ["a"]), ("x", RawCol.num [some 2])] : List (String × RawCol)).lookup c
          = some (RawCol.num cells)) → cells.filterMap id ≠ [] := by
    intro c cells h
    simp only [List.lookup] at h
    split at h
    · simp at h
    · split at h
      · simp only [Option.some.injEq, RawCol.num.injEq] at h
        subst h
        simp
      · simp at h
  have hrows : ∀ c col,
      (([("g", RawCol.cat ["a"]), ("x", RawCol.num [some 2])] : List (String × RawCol)).lookup c
          = some col) → 0 < col.length := by
    intro c col h
    simp only [List.lookup] at h
    split at h
    · simp only [Option.some.injEq] at h
      subst h
      simp [RawCol.length]
    · split at h
      · simp only [Option.some.injEq] at h
        subst h
        simp [RawCol.length]
      · simp at h
  have hfit : encode_features [("g", RawCol.cat ["a"]), ("x", RawCol.num [some 2])] ["g", "x"]
      true emptyEncoders (fun _ => 1)
      = Except.ok ([("g", [EncCell.code 0]), ("x", [EncCell.rat 0])],
          fitEncoders (selectCols [("g", RawCol.cat ["a"]), ("x", RawCol.num [some 2])] ["g", "x"])
            (fun _ => 1)) := by
    norm_num [encode_features, selectCols, encodeColFit, labelFitTransform, labelEncoderClasses,
      labelCode, fitNumCol, listMedian, listMean, scaleCell, sSort, sInsert, List.lookup,
      List.dedup, show (("x" : String) == "g") = false from by decide,
      show (("g" : String) == "g") = true from by decide,
      show (("x" : String) == "x") = true from by decide]
  exact ⟨hnn, hrows, hfit,
    claim4_fit_transform_roundtrip [("g", RawCol.cat ["a"]), ("x", RawCol.num [some 2])]
      ["g", "x"] (fun _ => 1) 0 [("g", [EncCell.code 0]), ("x", [EncCell.rat 0])]
      (fitEncoders (selectCols [("g", RawCol.cat ["a"]), ("x", RawCol.num [some 2])] ["g", "x"])
        (fun _ => 1)) hnn hrows hfit⟩

end VeilScore
